import Mathlib

/-!
Verification of the Hybrid Retrieval & Incremental Ingestion Engine of the
`rag-pipeline2` repository, as a shallow embedding in Lean 4.

The embedding follows the Python sources:
  * `src/components/text_splitter.py`   (`split_documents`)
  * `src/components/vector_store.py`    (`add_documents_to_pinecone`)
  * `src/providers/retriever.py`        (`RetrieverProvider`)
  * `src/providers/ingestor.py`         (`Ingestor.ingest_file`)

Several algorithms are performed by external library code that is not part of
the repository (the langchain `RecursiveCharacterTextSplitter`, the
`EnsembleRetriever` fusion, the `BM25Retriever` builder, the Pinecone store).
Those parts are modelled from the specification; each such definition carries a
doc comment starting with `Modelled from the spec:` naming what is missing.
Everything else is translated directly from the Python source.
-/

namespace RagPipeline

/-- A loaded document, as produced by `load_document`
(`src/components/document_loader.py`): `page_content` is the file's text
(embedded as a list of characters), `source` is the source identifier that
`TextLoader` records in the document metadata (the file path). -/
structure Doc where
  source : String
  page_content : List Char
deriving DecidableEq

/-- A chunk produced by splitting a document (spec §3): owning document id
(`source`), 0-based chunk index within the document (`idx`), and text. -/
structure Chunk where
  source : String
  idx : Nat
  text : List Char
deriving DecidableEq

/-- Chunk identity (spec §4.3/§4.4): source id together with chunk index. -/
def Chunk.key (c : Chunk) : String × Nat := (c.source, c.idx)

/-- The configuration fields used by the embedded code
(`src/shared/config.py`): chunking parameters and fusion weights. -/
structure Config where
  CHUNK_SIZE : Nat
  CHUNK_OVERLAP : Nat
  BM25_WEIGHT : ℚ
  PINECONE_WEIGHT : ℚ
deriving DecidableEq

/-- Modelled from the spec: the character-level splitting performed by the
external langchain `RecursiveCharacterTextSplitter`, which is not part of this
repository's sources. Per spec §3 and §4.1, chunks are contiguous substrings
of the document text of length at most `size`; consecutive chunks share
`overlap = size - stride` characters (the trailing `overlap` characters of
chunk `i` are the leading characters of chunk `i+1`), except at document
boundaries; empty input produces zero chunks. The model is a sliding window
of width `size` advancing by `stride` characters. -/
def chunkFrom (size stride : Nat) (t : List Char) : List (List Char) :=
  if t = [] then []
  else if t.length ≤ size ∨ stride = 0 then [t]
  else t.take size :: chunkFrom size stride (t.drop stride)
termination_by t.length
decreasing_by simp only [List.length_drop]; omega

/-- The chunks of one document, with their 0-based chunk indices
(spec §3: chunk index is the ordering within the document). -/
def docChunks (cfg : Config) (d : Doc) : List Chunk :=
  ((chunkFrom cfg.CHUNK_SIZE (cfg.CHUNK_SIZE - cfg.CHUNK_OVERLAP)
      d.page_content).enum).map (fun p => ⟨d.source, p.1, p.2⟩)

/-- Embeds `split_documents` (`src/components/text_splitter.py`): builds the
splitter from `config.CHUNK_SIZE` / `config.CHUNK_OVERLAP` and splits every
document. Per spec §4.1 the call fails with `InvalidConfiguration` when
`chunk_overlap ≥ chunk_size` (the configuration validation happens inside the
external splitter's constructor, hence is modelled from the spec); any
exception is re-raised by `split_documents`. -/
def split_documents (cfg : Config) (documents : List Doc) :
    Except String (List Chunk) :=
  if cfg.CHUNK_SIZE ≤ cfg.CHUNK_OVERLAP then .error "InvalidConfiguration"
  else .ok ((documents.map (docChunks cfg)).flatten)

/-- Concatenation of a list of chunk texts with the overlapping regions
removed: every chunk after the first loses its leading `overlap` characters
(which, by the chunk invariant of spec §3, duplicate the trailing characters
of the previous chunk). -/
def dropOverlaps (overlap : Nat) : List (List Char) → List Char
  | [] => []
  | c :: rest => c ++ (rest.map (List.drop overlap)).flatten

/-- Modelled from the spec: the external Pinecone vector store, which is not
part of this repository's sources, viewed as a list of stored chunks. Per
spec §4.3 a write is keyed by the stable identifier source id + chunk index:
if an entry with the chunk's key is present it is overwritten in place,
otherwise the chunk is appended. -/
def upsertOne (s : List Chunk) (e : Chunk) : List Chunk :=
  if s.any (fun x => decide (x.key = e.key))
  then s.map (fun x => if x.key = e.key then e else x)
  else s ++ [e]

/-- Embeds `add_documents_to_pinecone` (`src/components/vector_store.py`):
writes every chunk to the store via `vector_store.add_documents(documents)`;
the write of one chunk is the spec-modelled keyed upsert `upsertOne`.
Exceptions are re-raised; whether the external call raises is decided by the
caller (`ingest_file`) through its `pineconeOk` oracle. -/
def add_documents_to_pinecone (s : List Chunk) (documents : List Chunk) :
    List Chunk :=
  documents.foldl upsertOne s

/-- The BM25 index as returned by the external `BM25Retriever.from_documents`
call: it is a function of exactly the document list passed to the builder,
which is all the claims here depend on, so the model records that list. -/
structure BM25 where
  corpus : List Chunk
deriving DecidableEq

/-- The possible values of `RetrieverProvider.ensemble_retriever`
(`src/providers/retriever.py`): `_update_ensemble` always appends the
Pinecone retriever to `retrievers`, so the field is either the Pinecone
retriever alone, or an `EnsembleRetriever` over the BM25 retriever and the
Pinecone retriever with the configured weights. -/
inductive Retriever
  | pinecone
  | ensemble (b : BM25) (bm25Weight pineconeWeight : ℚ)
deriving DecidableEq

/-- The state of `RetrieverProvider` (`src/providers/retriever.py`). -/
structure RetrieverProvider where
  all_docs_in_memory : List Chunk
  bm25_retriever : Option BM25
  ensemble_retriever : Retriever
deriving DecidableEq

/-- Embeds `RetrieverProvider._update_ensemble`: `retrievers` holds the BM25
retriever when present, plus always the Pinecone retriever; when both are
present (`len(retrievers) > 1`) an `EnsembleRetriever` with weights
`[BM25_WEIGHT, PINECONE_WEIGHT]` is installed, otherwise the Pinecone
retriever alone. -/
def update_ensemble (cfg : Config) (st : RetrieverProvider) :
    RetrieverProvider :=
  match st.bm25_retriever with
  | some b =>
      { st with ensemble_retriever :=
          .ensemble b cfg.BM25_WEIGHT cfg.PINECONE_WEIGHT }
  | none => { st with ensemble_retriever := .pinecone }

/-- Embeds `RetrieverProvider.__init__`: empty document list, no BM25
retriever, ensemble initially the Pinecone retriever, then
`_update_ensemble()` is called. -/
def RetrieverProvider.init (cfg : Config) : RetrieverProvider :=
  update_ensemble cfg ⟨[], none, .pinecone⟩

/-- Embeds `RetrieverProvider.add_documents_for_bm25`: extends
`all_docs_in_memory` with the new documents, then — if the extended list is
non-empty — rebuilds the BM25 retriever from the whole list and refreshes the
ensemble. The external `BM25Retriever.from_documents` call may raise; the
method catches the exception and only logs it (no re-raise, no state change
beyond the already-performed append). `bm25Ok` decides whether the build
raises. -/
def add_documents_for_bm25 (cfg : Config) (bm25Ok : List Chunk → Bool)
    (st : RetrieverProvider) (documents : List Chunk) : RetrieverProvider :=
  let corpus := st.all_docs_in_memory ++ documents
  let st' : RetrieverProvider := { st with all_docs_in_memory := corpus }
  if corpus.isEmpty then st'
  else if bm25Ok corpus then
    update_ensemble cfg { st' with bm25_retriever := some ⟨corpus⟩ }
  else st'

/-- The state an ingestion call touches: the external vector store content
and the retriever provider. -/
structure SysState where
  store : List Chunk
  provider : RetrieverProvider
deriving DecidableEq

/-- Embeds `Ingestor.ingest_file` (`src/providers/ingestor.py`), with the
outcomes of the external calls passed in as oracles: `loadResult` is the
result of `load_document`, `pineconeOk` tells whether the Pinecone upsert
raises `StoreUnavailable`, and `bm25Ok` tells whether the BM25 build inside
`add_documents_for_bm25` succeeds. Python exception semantics are explicit:
the function returns the final state together with either the chunk count or
the raised error (state mutations made before a raise persist; the `except`
clause of `ingest_file` logs and re-raises). -/
def ingest_file (cfg : Config) (loadResult : Except String (List Doc))
    (pineconeOk : Bool) (bm25Ok : List Chunk → Bool) (st : SysState) :
    SysState × Except String Nat :=
  match loadResult with
  | .error e => (st, .error e)
  | .ok documents =>
    match split_documents cfg documents with
    | .error e => (st, .error e)
    | .ok split_docs =>
      if split_docs.isEmpty then (st, .ok 0)
      else if pineconeOk then
        (⟨add_documents_to_pinecone st.store split_docs,
          add_documents_for_bm25 cfg bm25Ok st.provider split_docs⟩,
         .ok split_docs.length)
      else (st, .error "StoreUnavailable")

/-- The operations of `RetrieverProvider` that can touch its state:
`add_documents_for_bm25` and `_update_ensemble` (`get_retriever` only
reads). -/
inductive ProviderOp
  | addDocs (bm25Ok : List Chunk → Bool) (docs : List Chunk)
  | refreshEnsemble

/-- One provider operation applied to the provider state. -/
def applyOp (cfg : Config) (st : RetrieverProvider) :
    ProviderOp → RetrieverProvider
  | .addDocs bm25Ok docs => add_documents_for_bm25 cfg bm25Ok st docs
  | .refreshEnsemble => update_ensemble cfg st

/-- A sequence of provider operations applied in order. -/
def applyOps (cfg : Config) (st : RetrieverProvider)
    (ops : List ProviderOp) : RetrieverProvider :=
  ops.foldl (applyOp cfg) st

/-- `e` is faithfully stored in `s`: some entry carries `e`'s key, and every
entry carrying `e`'s key is `e` itself. -/
def goodFor (s : List Chunk) (e : Chunk) : Prop :=
  (∀ x ∈ s, x.key = e.key → x = e) ∧ ∃ x ∈ s, x.key = e.key

/-- Modelled from the spec (§4.4): the score a ranked list assigns to a
chunk — the score of the first entry with the chunk's key, and 0 when the
chunk is absent from the list. -/
def scoreOf (l : List (Chunk × ℚ)) (c : Chunk) : ℚ :=
  match l.find? (fun p => decide (p.1.key = c.key)) with
  | some p => p.2
  | none => 0

/-- Modelled from the spec (§4.4): the list's maximum score, the divisor
normalizing its scores into `[0,1]` (retriever scores are nonnegative; an
empty list yields 0 and contributes nothing). -/
def maxScore (l : List (Chunk × ℚ)) : ℚ :=
  (l.map Prod.snd).foldr max 0

/-- Modelled from the spec (§4.4): the combined fused score
`lexical_weight * normalized_lexical_score +
 vector_weight * normalized_vector_score`. -/
def combined (lex vec : List (Chunk × ℚ)) (lw vw : ℚ) (c : Chunk) : ℚ :=
  lw * (scoreOf lex c / maxScore lex) + vw * (scoreOf vec c / maxScore vec)

/-- First position of a chunk's key in a ranked list (`l.length` if the key
is absent). -/
def keyIdx (l : List (Chunk × ℚ)) (c : Chunk) : Nat :=
  l.findIdx (fun p => decide (p.1.key = c.key))

/-- Modelled from the spec (§4.4): the tie-break rank — the position of the
chunk's first appearance in the vector list (the vector list is canonical for
ties); a chunk absent from the vector list ranks after the whole vector list,
by its position in the lexical list. -/
def tieIdx (lex vec : List (Chunk × ℚ)) (c : Chunk) : Nat :=
  if vec.any (fun p => decide (p.1.key = c.key)) then keyIdx vec c
  else vec.length + keyIdx lex c

/-- The fusion ordering: strictly greater combined score first; equal
combined scores ordered by the tie-break rank. -/
def fuseOrder (lex vec : List (Chunk × ℚ)) (lw vw : ℚ) (a b : Chunk) : Prop :=
  combined lex vec lw vw b < combined lex vec lw vw a
  ∨ (combined lex vec lw vw a = combined lex vec lw vw b
      ∧ tieIdx lex vec a ≤ tieIdx lex vec b)

instance (lex vec : List (Chunk × ℚ)) (lw vw : ℚ) :
    DecidableRel (fuseOrder lex vec lw vw) := fun a b =>
  inferInstanceAs (Decidable
    (combined lex vec lw vw b < combined lex vec lw vw a
      ∨ (combined lex vec lw vw a = combined lex vec lw vw b
        ∧ tieIdx lex vec a ≤ tieIdx lex vec b)))

instance (lex vec : List (Chunk × ℚ)) (lw vw : ℚ) :
    IsTotal Chunk (fuseOrder lex vec lw vw) := by
  constructor
  intro a b
  rcases lt_trichotomy (combined lex vec lw vw a) (combined lex vec lw vw b)
    with h | h | h
  · exact Or.inr (Or.inl h)
  · rcases Nat.le_total (tieIdx lex vec a) (tieIdx lex vec b) with ht | ht
    · exact Or.inl (Or.inr ⟨h, ht⟩)
    · exact Or.inr (Or.inr ⟨h.symm, ht⟩)
  · exact Or.inl (Or.inl h)

instance (lex vec : List (Chunk × ℚ)) (lw vw : ℚ) :
    IsTrans Chunk (fuseOrder lex vec lw vw) := by
  constructor
  intro a b c hab hbc
  rcases hab with h1 | ⟨h1, t1⟩
  · rcases hbc with h2 | ⟨h2, t2⟩
    · exact Or.inl (h2.trans h1)
    · exact Or.inl (by rw [← h2]; exact h1)
  · rcases hbc with h2 | ⟨h2, t2⟩
    · exact Or.inl (by rw [h1]; exact h2)
    · exact Or.inr ⟨h1.trans h2, Nat.le_trans t1 t2⟩

/-- Modelled from the spec (§4.4): deduplication by chunk identity, keeping
the first occurrence of each key. -/
def dedupKeys : List Chunk → List Chunk
  | [] => []
  | c :: rest =>
      c :: dedupKeys (rest.filter (fun x => !(decide (x.key = c.key))))
termination_by l => l.length
decreasing_by
  simp only [List.length_cons]
  exact Nat.lt_succ_of_le (List.length_filter_le _ _)

/-- Modelled from the spec (§4.4): the weighted-score fusion performed by the
external `EnsembleRetriever`, which is not part of this repository's sources
(spec §9 fixes §4.4 as the baseline contract for it): the chunks of the
vector list followed by those of the lexical list, deduplicated by key, and
sorted by descending combined score with the vector-position tie-break. -/
def fuse (lex vec : List (Chunk × ℚ)) (lw vw : ℚ) : List Chunk :=
  List.insertionSort (fuseOrder lex vec lw vw)
    (dedupKeys (vec.map Prod.fst ++ lex.map Prod.fst))

/-- Modelled from the spec (§4.3/§4.6): the similarity query of the external
vector store — ranks the stored chunks by a store-defined similarity to the
query (the abstract `rank`), descending, and returns the top `k` with their
scores. An empty store returns no results. -/
def vectorQuery (rank : Chunk → ℚ) (store : List Chunk) (k : Nat) :
    List (Chunk × ℚ) :=
  ((List.insertionSort (fun a b => rank b ≤ rank a) store).map
    (fun c => (c, rank c))).take k

/-- Modelled from the spec (§4.2/§4.6): the BM25 query — ranks the index's
corpus by a lexical score (the abstract `lexRank`), descending, returning the
top `k` with their scores. -/
def bm25Query (lexRank : Chunk → ℚ) (b : BM25) (k : Nat) :
    List (Chunk × ℚ) :=
  ((List.insertionSort (fun x y => lexRank y ≤ lexRank x) b.corpus).map
    (fun c => (c, lexRank c))).take k

/-- Runs the retriever held in `ensemble_retriever` (spec §4.6): the Pinecone
retriever alone queries the vector store; the ensemble fuses the BM25 and
vector ranked lists under the configured weights. -/
def runRetriever (rank lexRank : Chunk → ℚ) (store : List Chunk) (k : Nat) :
    Retriever → List Chunk
  | .pinecone => (vectorQuery rank store k).map Prod.fst
  | .ensemble b wB wP =>
      fuse (bm25Query lexRank b k) (vectorQuery rank store k) wB wP

/-- The retrieval entry point: queries the provider's current
`ensemble_retriever` against the vector store. -/
def retrieve (rank lexRank : Chunk → ℚ) (k : Nat) (sys : SysState) :
    List Chunk :=
  runRetriever rank lexRank sys.store k sys.provider.ensemble_retriever

theorem chunkFrom_cons (size stride : Nat) (t : List Char)
    (ht : t ≠ []) (hs : stride ≠ 0) :
    ∃ rs, chunkFrom size stride t = t.take size :: rs := by
  rw [chunkFrom]
  simp only [ht, if_false]
  by_cases h : t.length ≤ size ∨ stride = 0
  · rcases h with h | h
    · exact ⟨[], by simp [h, List.take_of_length_le h]⟩
    · exact absurd h hs
  · exact ⟨chunkFrom size stride (t.drop stride), by simp [h]⟩

theorem dropOverlaps_chunkFrom (size stride overlap : Nat) (hs : stride ≠ 0)
    (hso : stride + overlap = size) (t : List Char) :
    dropOverlaps overlap (chunkFrom size stride t) = t := by
  induction t using chunkFrom.induct size stride with
  | case1 => simp [chunkFrom, dropOverlaps]
  | case2 t ht h =>
    rw [chunkFrom]
    simp only [ht, if_false, h, if_true]
    simp [dropOverlaps]
  | case3 t ht h ih =>
    push_neg at h
    obtain ⟨hlen, -⟩ := h
    rw [chunkFrom]
    simp only [ht, if_false]
    rw [if_neg (by omega)]
    have hrem : t.drop stride ≠ [] := by
      intro hnil
      have := congrArg List.length hnil
      simp only [List.length_drop, List.length_nil] at this
      omega
    obtain ⟨rs, hcons⟩ := chunkFrom_cons size stride (t.drop stride) hrem hs
    have hheadlen : overlap ≤ ((t.drop stride).take size).length := by
      simp only [List.length_take, List.length_drop]
      omega
    rw [hcons] at ih ⊢
    simp only [dropOverlaps, List.map_cons, List.flatten_cons] at ih ⊢
    calc t.take size ++
          (((t.drop stride).take size).drop overlap ++
            (rs.map (List.drop overlap)).flatten)
        = t.take size ++
            (((t.drop stride).take size ++
              (rs.map (List.drop overlap)).flatten).drop overlap) := by
          rw [List.drop_append_of_le_length hheadlen]
      _ = t.take size ++ ((t.drop stride).drop overlap) := by rw [ih]
      _ = t.take size ++ t.drop size := by
          rw [List.drop_drop, hso]
      _ = t := List.take_append_drop size t

/-- C6: for every document and every configuration with
`chunk_overlap < chunk_size`, splitting succeeds and concatenating the
produced chunks' texts with the overlapping regions removed reconstructs
exactly the original document text. -/
theorem splitting_round_trip (cfg : Config) (d : Doc)
    (h : cfg.CHUNK_OVERLAP < cfg.CHUNK_SIZE) :
    ∃ chunks, split_documents cfg [d] = .ok chunks ∧
      dropOverlaps cfg.CHUNK_OVERLAP (chunks.map Chunk.text) = d.page_content := by
  refine ⟨docChunks cfg d, ?_, ?_⟩
  · rw [split_documents, if_neg (by omega)]
    simp
  · have htext : (docChunks cfg d).map Chunk.text
        = chunkFrom cfg.CHUNK_SIZE (cfg.CHUNK_SIZE - cfg.CHUNK_OVERLAP)
            d.page_content := by
      rw [docChunks, List.map_map]
      exact List.enum_map_snd _
    rw [htext]
    exact dropOverlaps_chunkFrom _ _ _ (by omega) (by omega) _

/-- Closed witness for C6 at a concrete configuration and document. -/
theorem splitting_round_trip_witness :
    (2 : Nat) < 5 ∧
      ∃ chunks,
        split_documents ⟨5, 2, 2/5, 3/5⟩ [⟨"a.txt", "hello world".toList⟩]
          = .ok chunks ∧
        dropOverlaps 2 (chunks.map Chunk.text) = "hello world".toList :=
  ⟨by decide, splitting_round_trip ⟨5, 2, 2/5, 3/5⟩
    ⟨"a.txt", "hello world".toList⟩ (by decide)⟩

/-- C7: splitting fails with `InvalidConfiguration` exactly when
`chunk_overlap ≥ chunk_size`, and succeeds exactly when
`chunk_overlap < chunk_size`; in particular the boundary case
`chunk_overlap = chunk_size` is rejected. -/
theorem split_invalid_config_iff (cfg : Config) (documents : List Doc) :
    (split_documents cfg documents = .error "InvalidConfiguration"
      ↔ cfg.CHUNK_SIZE ≤ cfg.CHUNK_OVERLAP)
    ∧ ((∃ chunks, split_documents cfg documents = .ok chunks)
      ↔ cfg.CHUNK_OVERLAP < cfg.CHUNK_SIZE)
    ∧ (cfg.CHUNK_OVERLAP = cfg.CHUNK_SIZE →
      split_documents cfg documents = .error "InvalidConfiguration") := by
  rw [split_documents]
  by_cases h : cfg.CHUNK_SIZE ≤ cfg.CHUNK_OVERLAP
  · simp [h]
    try omega
  · simp [h]
    try omega

theorem update_ensemble_all (cfg : Config) (st : RetrieverProvider) :
    (update_ensemble cfg st).all_docs_in_memory = st.all_docs_in_memory := by
  rw [update_ensemble]
  cases st.bm25_retriever <;> rfl

theorem update_ensemble_bm25 (cfg : Config) (st : RetrieverProvider) :
    (update_ensemble cfg st).bm25_retriever = st.bm25_retriever := by
  rw [update_ensemble]
  cases st.bm25_retriever <;> rfl

theorem add_documents_all (cfg : Config) (f : List Chunk → Bool)
    (st : RetrieverProvider) (ds : List Chunk) :
    (add_documents_for_bm25 cfg f st ds).all_docs_in_memory
      = st.all_docs_in_memory ++ ds := by
  simp only [add_documents_for_bm25]
  split
  · rfl
  · split
    · rw [update_ensemble_all]
    · rfl

theorem applyOp_all_extends (cfg : Config) (st : RetrieverProvider)
    (op : ProviderOp) :
    ∃ t, (applyOp cfg st op).all_docs_in_memory
      = st.all_docs_in_memory ++ t := by
  cases op with
  | addDocs f ds => exact ⟨ds, add_documents_all cfg f st ds⟩
  | refreshEnsemble =>
      exact ⟨[], by simp [applyOp, update_ensemble_all]⟩

theorem applyOps_all_extends (cfg : Config) (ops : List ProviderOp) :
    ∀ st : RetrieverProvider, ∃ t,
      (applyOps cfg st ops).all_docs_in_memory
        = st.all_docs_in_memory ++ t := by
  induction ops with
  | nil => exact fun st => ⟨[], by simp [applyOps]⟩
  | cons op rest ih =>
    intro st
    obtain ⟨u, hu⟩ := applyOp_all_extends cfg st op
    obtain ⟨t, ht⟩ := ih (applyOp cfg st op)
    refine ⟨u ++ t, ?_⟩
    have hstep : applyOps cfg st (op :: rest)
        = applyOps cfg (applyOp cfg st op) rest := rfl
    rw [hstep, ht, hu, List.append_assoc]

/-- C4: `add_documents_for_bm25` with a non-empty chunk list appends the
chunks to the corpus, and the BM25 index, when its build succeeds, is rebuilt
from the entire corpus (all chunks ever added, old plus new), never
incrementally; and across any sequence of provider operations the corpus only
grows — the earlier corpus remains an unchanged initial segment. -/
theorem add_documents_appends_and_rebuilds_full (cfg : Config)
    (bm25Ok : List Chunk → Bool) (st : RetrieverProvider)
    (docs : List Chunk) (ops : List ProviderOp) (hne : docs ≠ []) :
    (add_documents_for_bm25 cfg bm25Ok st docs).all_docs_in_memory
        = st.all_docs_in_memory ++ docs
    ∧ (bm25Ok (st.all_docs_in_memory ++ docs) = true →
        (add_documents_for_bm25 cfg bm25Ok st docs).bm25_retriever
          = some ⟨st.all_docs_in_memory ++ docs⟩)
    ∧ ∃ t, (applyOps cfg st ops).all_docs_in_memory
        = st.all_docs_in_memory ++ t := by
  refine ⟨add_documents_all cfg bm25Ok st docs, ?_,
    applyOps_all_extends cfg ops st⟩
  intro hok
  have hcorp : (st.all_docs_in_memory ++ docs).isEmpty = false := by
    simp [hne]
  simp only [add_documents_for_bm25, hcorp, hok, Bool.false_eq_true,
    if_false, if_true]
  rw [update_ensemble_bm25]

/-- Closed witness for C4 at concrete inputs. -/
theorem add_documents_appends_and_rebuilds_full_witness :
    ([(⟨"a.txt", 0, ['a']⟩ : Chunk)] ≠ ([] : List Chunk))
    ∧ ((add_documents_for_bm25 ⟨2, 1, 1, 1⟩ (fun _ => true)
          (RetrieverProvider.init ⟨2, 1, 1, 1⟩)
          [⟨"a.txt", 0, ['a']⟩]).all_docs_in_memory
        = (RetrieverProvider.init ⟨2, 1, 1, 1⟩).all_docs_in_memory
            ++ [⟨"a.txt", 0, ['a']⟩]
      ∧ ((fun _ => true)
            ((RetrieverProvider.init ⟨2, 1, 1, 1⟩).all_docs_in_memory
              ++ [⟨"a.txt", 0, ['a']⟩]) = true →
          (add_documents_for_bm25 ⟨2, 1, 1, 1⟩ (fun _ => true)
            (RetrieverProvider.init ⟨2, 1, 1, 1⟩)
            [⟨"a.txt", 0, ['a']⟩]).bm25_retriever
          = some ⟨(RetrieverProvider.init ⟨2, 1, 1, 1⟩).all_docs_in_memory
              ++ [⟨"a.txt", 0, ['a']⟩]⟩)
      ∧ ∃ t, (applyOps ⟨2, 1, 1, 1⟩ (RetrieverProvider.init ⟨2, 1, 1, 1⟩)
            [ProviderOp.refreshEnsemble]).all_docs_in_memory
          = (RetrieverProvider.init ⟨2, 1, 1, 1⟩).all_docs_in_memory ++ t) :=
  ⟨by decide,
    add_documents_appends_and_rebuilds_full ⟨2, 1, 1, 1⟩ (fun _ => true)
      (RetrieverProvider.init ⟨2, 1, 1, 1⟩) [⟨"a.txt", 0, ['a']⟩]
      [ProviderOp.refreshEnsemble] (by decide)⟩

/-- C3: when the vector-store upsert (step 3 of ingestion) fails, the call
aborts with the error and the Lexical Corpus — indeed the whole retriever
provider and the store — is exactly as before the call. -/
theorem ingest_store_failure_preserves_corpus (cfg : Config)
    (documents : List Doc) (split_docs : List Chunk)
    (bm25Ok : List Chunk → Bool) (st : SysState)
    (hsplit : split_documents cfg documents = .ok split_docs)
    (hne : split_docs ≠ []) :
    (ingest_file cfg (.ok documents) false bm25Ok st).2
        = .error "StoreUnavailable"
    ∧ (ingest_file cfg (.ok documents) false bm25Ok st).1.provider.all_docs_in_memory = st.provider.all_docs_in_memory
    ∧ (ingest_file cfg (.ok documents) false bm25Ok st).1 = st := by
  have hemp : split_docs.isEmpty = false := by simp [hne]
  simp only [ingest_file, hsplit, hemp, Bool.false_eq_true, if_false]
  exact ⟨trivial, trivial, trivial⟩

/-- Closed witness for C3 at a concrete configuration, document and state. -/
theorem ingest_store_failure_preserves_corpus_witness :
    (split_documents ⟨2, 1, 1, 1⟩ [⟨"a.txt", ['a', 'b']⟩]
        = .ok [⟨"a.txt", 0, ['a', 'b']⟩])
    ∧ ([(⟨"a.txt", 0, ['a', 'b']⟩ : Chunk)] ≠ ([] : List Chunk))
    ∧ ((ingest_file ⟨2, 1, 1, 1⟩ (.ok [⟨"a.txt", ['a', 'b']⟩]) false
          (fun _ => true)
          ⟨[], RetrieverProvider.init ⟨2, 1, 1, 1⟩⟩).2
        = .error "StoreUnavailable"
      ∧ (ingest_file ⟨2, 1, 1, 1⟩ (.ok [⟨"a.txt", ['a', 'b']⟩]) false
          (fun _ => true)
          ⟨[], RetrieverProvider.init ⟨2, 1, 1, 1⟩⟩).1.provider.all_docs_in_memory
        = (⟨[], RetrieverProvider.init ⟨2, 1, 1, 1⟩⟩ : SysState).provider.all_docs_in_memory
      ∧ (ingest_file ⟨2, 1, 1, 1⟩ (.ok [⟨"a.txt", ['a', 'b']⟩]) false
          (fun _ => true)
          ⟨[], RetrieverProvider.init ⟨2, 1, 1, 1⟩⟩).1
        = ⟨[], RetrieverProvider.init ⟨2, 1, 1, 1⟩⟩) :=
  ⟨by simp [split_documents, docChunks]; rw [chunkFrom]; norm_num; rfl,
    by decide,
    ingest_store_failure_preserves_corpus ⟨2, 1, 1, 1⟩
      [⟨"a.txt", ['a', 'b']⟩] [⟨"a.txt", 0, ['a', 'b']⟩] (fun _ => true)
      ⟨[], RetrieverProvider.init ⟨2, 1, 1, 1⟩⟩
      (by simp [split_documents, docChunks]; rw [chunkFrom]; norm_num; rfl)
      (by decide)⟩

/-- C5: when the BM25 rebuild fails after the vector write has succeeded, the
ingestion call does not raise: it completes returning the chunk count; the
corpus has been extended, but the previously built lexical retriever and the
ensemble in use are unchanged (vector-only mode if none existed), and the
vector write is kept. -/
theorem rebuild_failure_nonfatal (cfg : Config) (documents : List Doc)
    (split_docs : List Chunk) (bm25Ok : List Chunk → Bool) (st : SysState)
    (hsplit : split_documents cfg documents = .ok split_docs)
    (hne : split_docs ≠ [])
    (hfail : bm25Ok (st.provider.all_docs_in_memory ++ split_docs) = false) :
    (ingest_file cfg (.ok documents) true bm25Ok st).2 = .ok split_docs.length
    ∧ (ingest_file cfg (.ok documents) true bm25Ok st).1.provider.bm25_retriever = st.provider.bm25_retriever
    ∧ (ingest_file cfg (.ok documents) true bm25Ok st).1.provider.ensemble_retriever = st.provider.ensemble_retriever
    ∧ (ingest_file cfg (.ok documents) true bm25Ok st).1.provider.all_docs_in_memory = st.provider.all_docs_in_memory ++ split_docs
    ∧ (ingest_file cfg (.ok documents) true bm25Ok st).1.store
        = add_documents_to_pinecone st.store split_docs := by
  have hemp : split_docs.isEmpty = false := by simp [hne]
  have hcorp : (st.provider.all_docs_in_memory ++ split_docs).isEmpty
      = false := by simp [hne]
  simp only [ingest_file, hsplit, hemp, Bool.false_eq_true, if_false,
    if_true]
  simp only [add_documents_for_bm25, hcorp, hfail, Bool.false_eq_true,
    if_false]
  exact ⟨trivial, trivial, trivial, trivial, trivial⟩

/-- Closed witness for C5 at a concrete configuration, document and state. -/
theorem rebuild_failure_nonfatal_witness :
    (split_documents ⟨2, 1, 1, 1⟩ [⟨"a.txt", ['a', 'b']⟩]
        = .ok [⟨"a.txt", 0, ['a', 'b']⟩])
    ∧ ([(⟨"a.txt", 0, ['a', 'b']⟩ : Chunk)] ≠ ([] : List Chunk))
    ∧ ((fun _ => false)
        ((⟨[], RetrieverProvider.init ⟨2, 1, 1, 1⟩⟩ : SysState).provider.all_docs_in_memory ++ [⟨"a.txt", 0, ['a', 'b']⟩]) = false)
    ∧ ((ingest_file ⟨2, 1, 1, 1⟩ (.ok [⟨"a.txt", ['a', 'b']⟩]) true
          (fun _ => false)
          ⟨[], RetrieverProvider.init ⟨2, 1, 1, 1⟩⟩).2
        = .ok [(⟨"a.txt", 0, ['a', 'b']⟩ : Chunk)].length
      ∧ (ingest_file ⟨2, 1, 1, 1⟩ (.ok [⟨"a.txt", ['a', 'b']⟩]) true
          (fun _ => false)
          ⟨[], RetrieverProvider.init ⟨2, 1, 1, 1⟩⟩).1.provider.bm25_retriever
        = (⟨[], RetrieverProvider.init ⟨2, 1, 1, 1⟩⟩ : SysState).provider.bm25_retriever
      ∧ (ingest_file ⟨2, 1, 1, 1⟩ (.ok [⟨"a.txt", ['a', 'b']⟩]) true
          (fun _ => false)
          ⟨[], RetrieverProvider.init ⟨2, 1, 1, 1⟩⟩).1.provider.ensemble_retriever
        = (⟨[], RetrieverProvider.init ⟨2, 1, 1, 1⟩⟩ : SysState).provider.ensemble_retriever
      ∧ (ingest_file ⟨2, 1, 1, 1⟩ (.ok [⟨"a.txt", ['a', 'b']⟩]) true
          (fun _ => false)
          ⟨[], RetrieverProvider.init ⟨2, 1, 1, 1⟩⟩).1.provider.all_docs_in_memory
        = (⟨[], RetrieverProvider.init ⟨2, 1, 1, 1⟩⟩ : SysState).provider.all_docs_in_memory ++ [⟨"a.txt", 0, ['a', 'b']⟩]
      ∧ (ingest_file ⟨2, 1, 1, 1⟩ (.ok [⟨"a.txt", ['a', 'b']⟩]) true
          (fun _ => false)
          ⟨[], RetrieverProvider.init ⟨2, 1, 1, 1⟩⟩).1.store
        = add_documents_to_pinecone
            (⟨[], RetrieverProvider.init ⟨2, 1, 1, 1⟩⟩ : SysState).store
            [⟨"a.txt", 0, ['a', 'b']⟩]) :=
  ⟨by simp [split_documents, docChunks]; rw [chunkFrom]; norm_num; rfl,
    by decide, rfl,
    rebuild_failure_nonfatal ⟨2, 1, 1, 1⟩ [⟨"a.txt", ['a', 'b']⟩]
      [⟨"a.txt", 0, ['a', 'b']⟩] (fun _ => false)
      ⟨[], RetrieverProvider.init ⟨2, 1, 1, 1⟩⟩
      (by simp [split_documents, docChunks]; rw [chunkFrom]; norm_num; rfl)
      (by decide) rfl⟩

/-- C8: an ingestion whose input splits into zero chunks returns 0 without
error and performs no further action: store and corpus are untouched. -/
theorem ingest_zero_chunks_noop (cfg : Config) (documents : List Doc)
    (pineconeOk : Bool) (bm25Ok : List Chunk → Bool) (st : SysState)
    (hsplit : split_documents cfg documents = .ok []) :
    ingest_file cfg (.ok documents) pineconeOk bm25Ok st = (st, .ok 0) := by
  simp [ingest_file, hsplit]

/-- Closed witness for C8 at a concrete empty document. -/
theorem ingest_zero_chunks_noop_witness :
    (split_documents ⟨2, 1, 1, 1⟩ [⟨"a.txt", []⟩] = .ok [])
    ∧ ingest_file ⟨2, 1, 1, 1⟩ (.ok [⟨"a.txt", []⟩]) true (fun _ => true)
        ⟨[], RetrieverProvider.init ⟨2, 1, 1, 1⟩⟩
      = (⟨[], RetrieverProvider.init ⟨2, 1, 1, 1⟩⟩, .ok 0) :=
  ⟨by simp [split_documents, docChunks, chunkFrom],
    ingest_zero_chunks_noop ⟨2, 1, 1, 1⟩ [⟨"a.txt", []⟩] true (fun _ => true)
      ⟨[], RetrieverProvider.init ⟨2, 1, 1, 1⟩⟩
      (by simp [split_documents, docChunks, chunkFrom])⟩

/-- C10: when the BM25 build raises inside `add_documents_for_bm25`, the
corpus has nevertheless already been extended (the append precedes the build
attempt) while `bm25_retriever` and `ensemble_retriever` are unchanged; and a
next successful rebuild is built from a corpus that includes the documents of
the failed call. -/
theorem rebuild_failure_frame (cfg : Config)
    (bm25Ok₁ bm25Ok₂ : List Chunk → Bool) (st : RetrieverProvider)
    (docs docs₂ : List Chunk)
    (hne : st.all_docs_in_memory ++ docs ≠ [])
    (hfail : bm25Ok₁ (st.all_docs_in_memory ++ docs) = false)
    (hok : bm25Ok₂ ((st.all_docs_in_memory ++ docs) ++ docs₂) = true) :
    (add_documents_for_bm25 cfg bm25Ok₁ st docs).all_docs_in_memory
        = st.all_docs_in_memory ++ docs
    ∧ (add_documents_for_bm25 cfg bm25Ok₁ st docs).bm25_retriever
        = st.bm25_retriever
    ∧ (add_documents_for_bm25 cfg bm25Ok₁ st docs).ensemble_retriever
        = st.ensemble_retriever
    ∧ (add_documents_for_bm25 cfg bm25Ok₂
          (add_documents_for_bm25 cfg bm25Ok₁ st docs) docs₂).bm25_retriever
        = some ⟨(st.all_docs_in_memory ++ docs) ++ docs₂⟩
    ∧ docs ⊆ (st.all_docs_in_memory ++ docs) ++ docs₂ := by
  have hemp : (st.all_docs_in_memory ++ docs).isEmpty = false := by
    simp only [List.isEmpty_eq_false]
    exact hne
  have hfirst : add_documents_for_bm25 cfg bm25Ok₁ st docs
      = { st with all_docs_in_memory := st.all_docs_in_memory ++ docs } := by
    simp only [add_documents_for_bm25, hemp, hfail, Bool.false_eq_true,
      if_false]
  have hemp₂ : ((st.all_docs_in_memory ++ docs) ++ docs₂).isEmpty = false := by
    rw [List.isEmpty_eq_false]
    intro hcon
    rw [List.append_eq_nil] at hcon
    exact hne hcon.1
  refine ⟨by rw [hfirst], by rw [hfirst], by rw [hfirst], ?_, ?_⟩
  · rw [hfirst]
    simp only [add_documents_for_bm25, hemp₂, hok, if_true,
      Bool.false_eq_true, if_false]
    rw [update_ensemble_bm25]
  · intro x hx
    exact List.mem_append_left _ (List.mem_append_right _ hx)

/-- Closed witness for C10 at concrete inputs. -/
theorem rebuild_failure_frame_witness :
    ((RetrieverProvider.init ⟨2, 1, 1, 1⟩).all_docs_in_memory
        ++ [(⟨"a.txt", 0, ['a']⟩ : Chunk)] ≠ [])
    ∧ ((fun _ => false)
        ((RetrieverProvider.init ⟨2, 1, 1, 1⟩).all_docs_in_memory
          ++ [(⟨"a.txt", 0, ['a']⟩ : Chunk)]) = false)
    ∧ ((fun _ => true)
        (((RetrieverProvider.init ⟨2, 1, 1, 1⟩).all_docs_in_memory
          ++ [(⟨"a.txt", 0, ['a']⟩ : Chunk)])
          ++ [(⟨"b.txt", 0, ['b']⟩ : Chunk)]) = true)
    ∧ ((add_documents_for_bm25 ⟨2, 1, 1, 1⟩ (fun _ => false)
          (RetrieverProvider.init ⟨2, 1, 1, 1⟩)
          [⟨"a.txt", 0, ['a']⟩]).all_docs_in_memory
        = (RetrieverProvider.init ⟨2, 1, 1, 1⟩).all_docs_in_memory
            ++ [⟨"a.txt", 0, ['a']⟩]
      ∧ (add_documents_for_bm25 ⟨2, 1, 1, 1⟩ (fun _ => false)
          (RetrieverProvider.init ⟨2, 1, 1, 1⟩)
          [⟨"a.txt", 0, ['a']⟩]).bm25_retriever
        = (RetrieverProvider.init ⟨2, 1, 1, 1⟩).bm25_retriever
      ∧ (add_documents_for_bm25 ⟨2, 1, 1, 1⟩ (fun _ => false)
          (RetrieverProvider.init ⟨2, 1, 1, 1⟩)
          [⟨"a.txt", 0, ['a']⟩]).ensemble_retriever
        = (RetrieverProvider.init ⟨2, 1, 1, 1⟩).ensemble_retriever
      ∧ (add_documents_for_bm25 ⟨2, 1, 1, 1⟩ (fun _ => true)
          (add_documents_for_bm25 ⟨2, 1, 1, 1⟩ (fun _ => false)
            (RetrieverProvider.init ⟨2, 1, 1, 1⟩) [⟨"a.txt", 0, ['a']⟩])
          [⟨"b.txt", 0, ['b']⟩]).bm25_retriever
        = some ⟨((RetrieverProvider.init ⟨2, 1, 1, 1⟩).all_docs_in_memory
            ++ [⟨"a.txt", 0, ['a']⟩]) ++ [⟨"b.txt", 0, ['b']⟩]⟩
      ∧ [(⟨"a.txt", 0, ['a']⟩ : Chunk)]
          ⊆ ((RetrieverProvider.init ⟨2, 1, 1, 1⟩).all_docs_in_memory
            ++ [⟨"a.txt", 0, ['a']⟩]) ++ [⟨"b.txt", 0, ['b']⟩]) :=
  ⟨by decide, rfl, rfl,
    rebuild_failure_frame ⟨2, 1, 1, 1⟩ (fun _ => false) (fun _ => true)
      (RetrieverProvider.init ⟨2, 1, 1, 1⟩) [⟨"a.txt", 0, ['a']⟩]
      [⟨"b.txt", 0, ['b']⟩] (by decide) rfl rfl⟩

theorem upsertOne_id (s : List Chunk) (e : Chunk) (h : goodFor s e) :
    upsertOne s e = s := by
  obtain ⟨hall, x, hx, hk⟩ := h
  rw [upsertOne, if_pos]
  · have hcong : ∀ y ∈ s, (if y.key = e.key then e else y) = y := by
      intro y hy
      by_cases hyk : y.key = e.key
      · simp [hyk, hall y hy hyk]
      · simp [hyk]
    exact (List.map_congr_left hcong).trans (List.map_id s)
  · exact List.any_eq_true.mpr ⟨x, hx, by simp [hk]⟩

theorem upsertOne_goodFor_self (s : List Chunk) (e : Chunk) :
    goodFor (upsertOne s e) e := by
  rw [upsertOne]
  split
  case isTrue h =>
    constructor
    · intro x hx hk
      rw [List.mem_map] at hx
      obtain ⟨y, hy, rfl⟩ := hx
      by_cases hyk : y.key = e.key
      · simp [hyk]
      · simp only [hyk, if_false] at hk ⊢
    · rw [List.any_eq_true] at h
      obtain ⟨y, hy, hyk⟩ := h
      rw [decide_eq_true_eq] at hyk
      refine ⟨e, ?_, rfl⟩
      rw [List.mem_map]
      exact ⟨y, hy, by simp [hyk]⟩
  case isFalse h =>
    constructor
    · intro x hx _
      rcases List.mem_append.mp hx with hxs | hxe
      · exfalso
        apply h
        rw [List.any_eq_true]
        rename_i hk
        exact ⟨x, hxs, by simp [hk]⟩
      · rwa [List.mem_singleton] at hxe
    · exact ⟨e, List.mem_append_right _ (List.mem_singleton_self e), rfl⟩

theorem upsertOne_goodFor_other (s : List Chunk) (e e' : Chunk)
    (hk : e'.key ≠ e.key) (h : goodFor s e') : goodFor (upsertOne s e) e' := by
  obtain ⟨hall, x, hx, hxk⟩ := h
  rw [upsertOne]
  split
  · constructor
    · intro y hy hyk
      rw [List.mem_map] at hy
      obtain ⟨z, hz, rfl⟩ := hy
      by_cases hzk : z.key = e.key
      · simp only [hzk, if_true] at hyk ⊢
        exact absurd hyk.symm hk
      · simp only [hzk, if_false] at hyk ⊢
        exact hall z hz hyk
    · refine ⟨x, ?_, hxk⟩
      rw [List.mem_map]
      refine ⟨x, hx, ?_⟩
      have hxe : ¬ x.key = e.key := by rw [hxk]; exact hk
      simp [hxe]
  · constructor
    · intro y hy hyk
      rcases List.mem_append.mp hy with hys | hye
      · exact hall y hys hyk
      · rw [List.mem_singleton] at hye
        subst hye
        exact absurd hyk.symm hk
    · exact ⟨x, List.mem_append_left _ hx, hxk⟩

theorem foldl_upsert_goodFor_other (docs : List Chunk) (e : Chunk)
    (hnk : ∀ d ∈ docs, e.key ≠ d.key) :
    ∀ s, goodFor s e → goodFor (docs.foldl upsertOne s) e := by
  induction docs with
  | nil => exact fun s h => h
  | cons d rest ih =>
    intro s h
    have h1 : goodFor (upsertOne s d) e :=
      upsertOne_goodFor_other s d e (hnk d (List.mem_cons_self d rest)) h
    exact ih (fun d' hd' => hnk d' (List.mem_cons_of_mem d hd'))
      (upsertOne s d) h1

theorem foldl_upsert_goodFor (docs : List Chunk)
    (hnd : (docs.map Chunk.key).Nodup) :
    ∀ s, ∀ e ∈ docs, goodFor (docs.foldl upsertOne s) e := by
  induction docs with
  | nil => intro s e he; simp at he
  | cons d rest ih =>
    intro s e he
    rw [List.map_cons, List.nodup_cons] at hnd
    obtain ⟨hdk, hrest⟩ := hnd
    rcases List.mem_cons.mp he with rfl | he
    · have h1 : goodFor (upsertOne s e) e := upsertOne_goodFor_self s e
      have hnk : ∀ d' ∈ rest, e.key ≠ d'.key := by
        intro d' hd' hcon
        exact hdk (by rw [hcon]; exact List.mem_map_of_mem Chunk.key hd')
      exact foldl_upsert_goodFor_other rest e hnk (upsertOne s e) h1
    · exact ih hrest (upsertOne s d) e he

theorem foldl_upsert_id (docs : List Chunk) :
    ∀ s, (∀ e ∈ docs, goodFor s e) → docs.foldl upsertOne s = s := by
  induction docs with
  | nil => intro s _; rfl
  | cons d rest ih =>
    intro s h
    have hd : upsertOne s d = s := upsertOne_id s d (h d (List.mem_cons_self d rest))
    show rest.foldl upsertOne (upsertOne s d) = s
    rw [hd]
    exact ih s (fun e he => h e (List.mem_cons_of_mem d he))

theorem add_documents_to_pinecone_idem (s docs : List Chunk)
    (hnd : (docs.map Chunk.key).Nodup) :
    add_documents_to_pinecone (add_documents_to_pinecone s docs) docs
      = add_documents_to_pinecone s docs :=
  foldl_upsert_id docs _ (fun e he => foldl_upsert_goodFor docs hnd s e he)

theorem docChunks_keys_nodup (cfg : Config) (d : Doc) :
    ((docChunks cfg d).map Chunk.key).Nodup := by
  rw [docChunks, List.map_map]
  have hf : (Chunk.key ∘ fun p : Nat × List Char =>
      (⟨d.source, p.1, p.2⟩ : Chunk))
      = (fun i => (d.source, i)) ∘ Prod.fst := rfl
  rw [hf, ← List.map_map, List.enum_map_fst]
  refine List.Nodup.map ?_ (List.nodup_range _)
  intro a b hab
  simpa using congrArg Prod.snd hab

/-- C2: ingesting the same document (same source id and identical text) twice
is idempotent on the vector store: the second ingestion's writes overwrite
the entries keyed by source id + chunk index rather than adding new ones, so
the store after the second call equals the store after the first — in
particular the entry count for that document's chunks does not double. -/
theorem ingest_twice_store_unchanged (cfg : Config) (d : Doc)
    (bm25Ok₁ bm25Ok₂ : List Chunk → Bool) (st : SysState) :
    (ingest_file cfg (.ok [d]) true bm25Ok₂
        (ingest_file cfg (.ok [d]) true bm25Ok₁ st).1).1.store
      = (ingest_file cfg (.ok [d]) true bm25Ok₁ st).1.store
    ∧ (ingest_file cfg (.ok [d]) true bm25Ok₂
        (ingest_file cfg (.ok [d]) true bm25Ok₁ st).1).1.store.length
      = (ingest_file cfg (.ok [d]) true bm25Ok₁ st).1.store.length := by
  have main : (ingest_file cfg (.ok [d]) true bm25Ok₂
      (ingest_file cfg (.ok [d]) true bm25Ok₁ st).1).1.store
      = (ingest_file cfg (.ok [d]) true bm25Ok₁ st).1.store := by
    cases hsp : split_documents cfg [d] with
    | error e => simp only [ingest_file, hsp]
    | ok chunks =>
      have hch : chunks = docChunks cfg d := by
        rw [split_documents] at hsp
        by_cases hcfg : cfg.CHUNK_SIZE ≤ cfg.CHUNK_OVERLAP
        · rw [if_pos hcfg] at hsp
          cases hsp
        · rw [if_neg hcfg] at hsp
          simp only [List.map_cons, List.map_nil, List.flatten_cons,
            List.flatten_nil, List.append_nil, Except.ok.injEq] at hsp
          exact hsp.symm
      by_cases hemp : chunks.isEmpty = true
      · simp only [ingest_file, hsp, hemp, if_true]
      · have hemp' : chunks.isEmpty = false := by
          revert hemp
          cases chunks.isEmpty <;> simp
        simp only [ingest_file, hsp, hemp', Bool.false_eq_true, if_false,
          if_true]
        subst hch
        exact add_documents_to_pinecone_idem st.store _
          (docChunks_keys_nodup cfg d)
  exact ⟨main, by rw [main]⟩

/-- C9: on a freshly started engine (zero successful lexical ingestions) the
retriever in use is the Pinecone vector-only retriever — the vector ranking
is passed through on its own — and retrieval does not fail: a Retrieve call
over the empty vector store returns the empty list rather than an error. -/
theorem fresh_engine_vector_only (cfg : Config) (rank lexRank : Chunk → ℚ)
    (k : Nat) :
    (RetrieverProvider.init cfg).ensemble_retriever = Retriever.pinecone
    ∧ retrieve rank lexRank k ⟨[], RetrieverProvider.init cfg⟩ = [] := by
  refine ⟨rfl, ?_⟩
  rw [retrieve]
  show runRetriever rank lexRank [] k Retriever.pinecone = []
  rw [runRetriever]
  simp [vectorQuery]

theorem mem_dedupKeys_sub (l : List Chunk) : ∀ x ∈ dedupKeys l, x ∈ l := by
  induction l using dedupKeys.induct with
  | case1 => intro x hx; simp [dedupKeys] at hx
  | case2 c rest ih =>
    intro x hx
    rw [dedupKeys] at hx
    rcases List.mem_cons.mp hx with rfl | hx
    · exact List.mem_cons_self x _
    · exact List.mem_cons_of_mem c (List.mem_of_mem_filter (ih x hx))

theorem dedupKeys_key_surj (l : List Chunk) :
    ∀ x ∈ l, ∃ y ∈ dedupKeys l, y.key = x.key := by
  induction l using dedupKeys.induct with
  | case1 => intro x hx; simp at hx
  | case2 c rest ih =>
    intro x hx
    rw [dedupKeys]
    rcases List.mem_cons.mp hx with h | hx
    · exact ⟨c, List.mem_cons_self c _, by rw [h]⟩
    · by_cases hk : x.key = c.key
      · exact ⟨c, List.mem_cons_self c _, hk.symm⟩
      · obtain ⟨y, hy, hyk⟩ := ih x (List.mem_filter.mpr ⟨hx, by simp [hk]⟩)
        exact ⟨y, List.mem_cons_of_mem c hy, hyk⟩

theorem dedupKeys_keys_nodup (l : List Chunk) :
    ((dedupKeys l).map Chunk.key).Nodup := by
  induction l using dedupKeys.induct with
  | case1 => simp [dedupKeys]
  | case2 c rest ih =>
    rw [dedupKeys, List.map_cons, List.nodup_cons]
    refine ⟨?_, ih⟩
    intro hmem
    rw [List.mem_map] at hmem
    obtain ⟨y, hy, hyk⟩ := hmem
    have hyf := mem_dedupKeys_sub _ y hy
    have := (List.mem_filter.mp hyf).2
    simp only [Bool.not_eq_true', decide_eq_false_iff_not] at this
    exact this hyk

theorem scoreOf_eq_zero (l : List (Chunk × ℚ)) (c : Chunk)
    (h : ∀ p ∈ l, p.1.key ≠ c.key) : scoreOf l c = 0 := by
  rw [scoreOf]
  have hnone : l.find? (fun p => decide (p.1.key = c.key)) = none := by
    rw [List.find?_eq_none]
    intro p hp
    simp [h p hp]
  rw [hnone]

/-- C1: for every pair of ranked result lists and fixed non-negative weights,
the spec-modelled fusion returns the chunks of the two lists deduplicated by
chunk identity — each key of either list appears exactly once — sorted
descending by the combined score
`lw * (lexical score / max lexical score) + vw * (vector score / max vector
score)`, where a chunk absent from a list contributes 0 for that list, with
ties broken by the chunk's first position in the vector list (`tieIdx`). -/
theorem fuse_weighted_score_spec (lex vec : List (Chunk × ℚ)) (lw vw : ℚ)
    (hlw : 0 ≤ lw) (hvw : 0 ≤ vw) :
    ((fuse lex vec lw vw).map Chunk.key).Nodup
    ∧ (∀ c ∈ fuse lex vec lw vw, c ∈ vec.map Prod.fst ++ lex.map Prod.fst)
    ∧ (∀ x ∈ vec.map Prod.fst ++ lex.map Prod.fst,
        ∃ y ∈ fuse lex vec lw vw, y.key = x.key)
    ∧ (∀ c, combined lex vec lw vw c
        = lw * (scoreOf lex c / maxScore lex)
          + vw * (scoreOf vec c / maxScore vec))
    ∧ (∀ c, (∀ p ∈ lex, p.1.key ≠ c.key) → scoreOf lex c = 0)
    ∧ (∀ c, (∀ p ∈ vec, p.1.key ≠ c.key) → scoreOf vec c = 0)
    ∧ (fuse lex vec lw vw).Pairwise (fun a b =>
        combined lex vec lw vw b < combined lex vec lw vw a
        ∨ (combined lex vec lw vw a = combined lex vec lw vw b
            ∧ tieIdx lex vec a ≤ tieIdx lex vec b)) := by
  have hperm : List.Perm (fuse lex vec lw vw)
      (dedupKeys (vec.map Prod.fst ++ lex.map Prod.fst)) :=
    List.perm_insertionSort _ _
  refine ⟨?_, ?_, ?_, fun c => rfl, fun c h => scoreOf_eq_zero lex c h,
    fun c h => scoreOf_eq_zero vec c h, ?_⟩
  · exact ((hperm.map Chunk.key).nodup_iff).mpr
      (dedupKeys_keys_nodup (vec.map Prod.fst ++ lex.map Prod.fst))
  · intro c hc
    exact mem_dedupKeys_sub _ c (hperm.mem_iff.mp hc)
  · intro x hx
    obtain ⟨y, hy, hyk⟩ :=
      dedupKeys_key_surj (vec.map Prod.fst ++ lex.map Prod.fst) x hx
    exact ⟨y, hperm.mem_iff.mpr hy, hyk⟩
  · exact List.sorted_insertionSort (fuseOrder lex vec lw vw) _

/-- Closed witness for C1 at concrete ranked lists and weights. -/
theorem fuse_weighted_score_spec_witness :
    (0 : ℚ) ≤ 1 ∧ (0 : ℚ) ≤ 1
    ∧ (((fuse [((⟨"a.txt", 0, ['a']⟩ : Chunk), (2 : ℚ))]
          [((⟨"b.txt", 0, ['b']⟩ : Chunk), (1 : ℚ))] 1 1).map Chunk.key).Nodup
      ∧ (∀ c ∈ fuse [((⟨"a.txt", 0, ['a']⟩ : Chunk), (2 : ℚ))]
            [((⟨"b.txt", 0, ['b']⟩ : Chunk), (1 : ℚ))] 1 1,
          c ∈ [((⟨"b.txt", 0, ['b']⟩ : Chunk), (1 : ℚ))].map Prod.fst
            ++ [((⟨"a.txt", 0, ['a']⟩ : Chunk), (2 : ℚ))].map Prod.fst)
      ∧ (∀ x ∈ [((⟨"b.txt", 0, ['b']⟩ : Chunk), (1 : ℚ))].map Prod.fst
            ++ [((⟨"a.txt", 0, ['a']⟩ : Chunk), (2 : ℚ))].map Prod.fst,
          ∃ y ∈ fuse [((⟨"a.txt", 0, ['a']⟩ : Chunk), (2 : ℚ))]
            [((⟨"b.txt", 0, ['b']⟩ : Chunk), (1 : ℚ))] 1 1, y.key = x.key)
      ∧ (∀ c, combined [((⟨"a.txt", 0, ['a']⟩ : Chunk), (2 : ℚ))]
            [((⟨"b.txt", 0, ['b']⟩ : Chunk), (1 : ℚ))] 1 1 c
          = 1 * (scoreOf [((⟨"a.txt", 0, ['a']⟩ : Chunk), (2 : ℚ))] c
              / maxScore [((⟨"a.txt", 0, ['a']⟩ : Chunk), (2 : ℚ))])
            + 1 * (scoreOf [((⟨"b.txt", 0, ['b']⟩ : Chunk), (1 : ℚ))] c
              / maxScore [((⟨"b.txt", 0, ['b']⟩ : Chunk), (1 : ℚ))]))
      ∧ (∀ c, (∀ p ∈ [((⟨"a.txt", 0, ['a']⟩ : Chunk), (2 : ℚ))],
            p.1.key ≠ c.key) →
          scoreOf [((⟨"a.txt", 0, ['a']⟩ : Chunk), (2 : ℚ))] c = 0)
      ∧ (∀ c, (∀ p ∈ [((⟨"b.txt", 0, ['b']⟩ : Chunk), (1 : ℚ))],
            p.1.key ≠ c.key) →
          scoreOf [((⟨"b.txt", 0, ['b']⟩ : Chunk), (1 : ℚ))] c = 0)
      ∧ (fuse [((⟨"a.txt", 0, ['a']⟩ : Chunk), (2 : ℚ))]
          [((⟨"b.txt", 0, ['b']⟩ : Chunk), (1 : ℚ))] 1 1).Pairwise
          (fun a b =>
            combined [((⟨"a.txt", 0, ['a']⟩ : Chunk), (2 : ℚ))]
              [((⟨"b.txt", 0, ['b']⟩ : Chunk), (1 : ℚ))] 1 1 b
              < combined [((⟨"a.txt", 0, ['a']⟩ : Chunk), (2 : ℚ))]
                [((⟨"b.txt", 0, ['b']⟩ : Chunk), (1 : ℚ))] 1 1 a
            ∨ (combined [((⟨"a.txt", 0, ['a']⟩ : Chunk), (2 : ℚ))]
                [((⟨"b.txt", 0, ['b']⟩ : Chunk), (1 : ℚ))] 1 1 a
                = combined [((⟨"a.txt", 0, ['a']⟩ : Chunk), (2 : ℚ))]
                  [((⟨"b.txt", 0, ['b']⟩ : Chunk), (1 : ℚ))] 1 1 b
              ∧ tieIdx [((⟨"a.txt", 0, ['a']⟩ : Chunk), (2 : ℚ))]
                  [((⟨"b.txt", 0, ['b']⟩ : Chunk), (1 : ℚ))] a
                ≤ tieIdx [((⟨"a.txt", 0, ['a']⟩ : Chunk), (2 : ℚ))]
                  [((⟨"b.txt", 0, ['b']⟩ : Chunk), (1 : ℚ))] b))) :=
  ⟨by norm_num, by norm_num,
    fuse_weighted_score_spec [((⟨"a.txt", 0, ['a']⟩ : Chunk), (2 : ℚ))]
      [((⟨"b.txt", 0, ['b']⟩ : Chunk), (1 : ℚ))] 1 1 (by norm_num)
      (by norm_num)⟩

end RagPipeline
